import Mathlib

/-!
Verification of the TaggingApp tag engine and content filter.

This file gives a shallow embedding, in Lean, of the Python functions of the
TaggingApp repository that the verified properties talk about, chiefly from
`py/tag_manager.py`, `py/content_processor.py`, `py/state_manager.py` and
`py/views.py`, and proves (or refutes) the stated properties about them.

Modelling conventions:

* Python strings are Lean `String`s; `str.lower` is modelled by mapping
  `Char.toLower` over the characters (both only fold ASCII letters in the
  inputs that occur here); `str.strip` is modelled by dropping whitespace
  characters from both ends of the character list.
* A Python `list` is a Lean `List`.  A Python `set` is modelled as a
  duplicate-free `List` in which `set.update` appends the members not already
  present, in order.  Python's set iteration order is unspecified (hash
  order); the first-occurrence order used here is a deterministic stand-in,
  and no proved statement depends on the choice except through it.
* `sorted(..., key=str.lower)` is a stable sort by the lowercased string; it
  is modelled by a stable insertion sort (`pySortedByLower`) rather than
  `List.mergeSort` so that concrete instances reduce by `decide`.
* The mutable `core.document_state` dictionary becomes an explicit
  `Document` value threaded through the functions.  The `known_tags` entry
  can be absent, a Python list, or a Python set, and several functions
  branch on that, so it is modelled by the three-constructor `KnownTags`.
  The optional `notes`, `and_tags` and `tag_categories` keys are modelled as
  plain lists, since every access in the embedded code goes through
  `.get(key, [])` or recreates an absent key as an empty list, which is
  observationally the same as an empty list.
* Disk, logging and flash side effects (`save_state`, `log_tag_deletion`,
  `flash`) are external I/O; the embedding keeps the data they would be
  given where a property mentions it (flash messages of `delete_state`) and
  drops them otherwise.
* Fallible code returns `Except String`; the only failure modelled is the
  `TypeError` raised by calling a two-parameter function with three
  positional arguments, which `call_should_show_content_for_filter` makes
  explicit by dispatching on the argument list.
-/

namespace TaggingApp

/-! ## Python string primitives -/

/-- Model of `str.lower`, character by character (ASCII, like every tag in scope). -/
def lowerChars (s : String) : List Char := s.toList.map Char.toLower

/-- Model of `str.lower` returning a string: the model of Python `s.lower()`. -/
def pyLower (s : String) : String := String.mk (lowerChars s)

/-- Lexicographic `≤` on character lists, the order Python uses to compare
the (lowercased) strings handed to `sorted`. -/
def lexLe : List Char → List Char → Bool
  | [], _ => true
  | _ :: _, [] => false
  | a :: as, b :: bs => if a = b then lexLe as bs else decide (a < b)

/-- Lexicographic `<` on character lists. -/
def lexLt : List Char → List Char → Bool
  | [], [] => false
  | [], _ :: _ => true
  | _ :: _, [] => false
  | a :: as, b :: bs => if a = b then lexLt as bs else decide (a < b)

/-- Model of `key=str.lower` comparison used by every `sorted(..., key=str.lower)`. -/
def lowerLe (a b : String) : Bool := lexLe (lowerChars a) (lowerChars b)

/-- Strict version of `lowerLe`. -/
def lowerLt (a b : String) : Bool := lexLt (lowerChars a) (lowerChars b)

/-- Insert `x` into a sorted list, after every element strictly below it, so
that the sort built from it is stable like Python's. -/
def insertByLower (x : String) : List String → List String
  | [] => [x]
  | y :: ys => if lowerLt y x then y :: insertByLower x ys else x :: y :: ys

/-- Stable sort by lowercased key: the model of `sorted(l, key=str.lower)`. -/
def pySortedByLower (l : List String) : List String := l.foldr insertByLower []

/-- Python `set.update(new)`: append the members of `new` that are not
already present, in order. -/
def pyUpdate (s : List String) (new_elems : List String) : List String :=
  new_elems.foldl (fun acc t => if t ∈ acc then acc else acc ++ [t]) s

/-- Python `set(l)` built from a list: first occurrences, in order. -/
def pySet (l : List String) : List String := pyUpdate [] l

/-- Model of `str.strip()` on a character list: drop whitespace from both ends. -/
def stripChars (l : List Char) : List Char :=
  ((l.dropWhile (fun c => c.isWhitespace)).reverse.dropWhile
    (fun c => c.isWhitespace)).reverse

/-- Model of `str.strip()` as the Python method. -/
def pyStrip (s : String) : String := String.mk (stripChars s.toList)

/-- Python `s.split(sep)` for the one-character separator `sep`. -/
def splitChar (sep : Char) : List Char → List (List Char)
  | [] => [[]]
  | x :: xs =>
    if x = sep then [] :: splitChar sep xs
    else
      match splitChar sep xs with
      | [] => [[x]]
      | y :: ys => (x :: y) :: ys

/-- Python `s.split(' & ')`: split on each leftmost occurrence of the
three-character separator. -/
def splitAmpSpaced : List Char → List (List Char)
  | ' ' :: '&' :: ' ' :: rest => [] :: splitAmpSpaced rest
  | [] => [[]]
  | x :: xs =>
    match splitAmpSpaced xs with
    | [] => [[x]]
    | y :: ys => (x :: y) :: ys

/-- Does the list start with the three characters of `" & "`? -/
def startsWithSpacedAmp : List Char → Bool
  | a :: b :: c :: _ => a == ' ' && b == '&' && c == ' '
  | _ => false

/-- Python `' & ' in s`: some suffix starts with the separator. -/
def hasSpacedAmp : List Char → Bool
  | [] => false
  | c :: cs => startsWithSpacedAmp (c :: cs) || hasSpacedAmp cs

/-! ## Document model

`tag_manager.py` and its callers operate on the module-level dictionary
`core.document_state` with keys `documentTitle`, `sections` (each section a
dict with `id`, `tags`, `categories`, `notes`), top-level `notes`,
`known_tags`, `tag_categories` and `and_tags`. -/

/-- A note: `{id, tags, categories}` (title/content/completed are carried
along by the Python dicts but never read by the embedded functions). -/
structure Note where
  id : String
  tags : List String
  categories : List String
deriving DecidableEq

/-- A section: `{id, tags, categories, notes}`. -/
structure Section where
  id : String
  tags : List String
  categories : List String
  notes : List Note
deriving DecidableEq

/-- A tag category: `{id, name, tags}`. -/
structure Category where
  id : String
  name : String
  tags : List String
deriving DecidableEq

/-- The `known_tags` entry of `document_state`: absent, a Python list, or a
Python set (serialised as a list of its members). -/
inductive KnownTags where
  | missing : KnownTags
  | lst : List String → KnownTags
  | set : List String → KnownTags
deriving DecidableEq

/-- The members of the `known_tags` entry, whatever its representation. -/
def KnownTags.elems : KnownTags → List String
  | .missing => []
  | .lst l => l
  | .set s => s

/-- The in-memory `core.document_state`. -/
structure Document where
  documentTitle : String
  sections : List Section
  notes : List Note
  known_tags : KnownTags
  tag_categories : List Category
  and_tags : List String
deriving DecidableEq

/-! ## tag_manager.py -/

/-- Model of `tag_manager.should_show_content_for_filter` (tag_manager.py:9-21):
empty filter shows everything; a filter containing `&` requires every
`&`-separated, stripped component to be in `content_tags`; otherwise plain
membership. -/
def should_show_content_for_filter (content_tags : List String)
    (filter_tag : String) : Bool :=
  if filter_tag = "" then true
  else if filter_tag.toList.contains '&' then
    ((splitChar '&' filter_tag.toList).map
      (fun l => pyStrip (String.mk l))).all (fun t => decide (t ∈ content_tags))
  else decide (filter_tag ∈ content_tags)

/-- Python `"&".join` on the underlying character lists. -/
def joinAmp : List (List Char) → List Char
  | [] => []
  | [x] => x
  | x :: xs => x ++ '&' :: joinAmp xs

/-- Model of `tag_manager.combine_tags_to_and` (tag_manager.py:42-49):
`"&".join(sorted(list(set(tags)), key=str.lower))`. -/
def combine_tags_to_and (tags : List String) : String :=
  String.mk (joinAmp ((pySortedByLower (pySet tags)).map String.toList))

/-- Model of `tag_manager.parse_and_tag_components` (tag_manager.py:51-63): split an
`&`-containing tag on `' & '` when that spacing occurs, else on `'&'`,
strip each component, and sort case-insensitively; a tag without `&` parses
to itself. -/
def parse_and_tag_components (tag_name : String) : List String :=
  if tag_name.toList.contains '&' then
    pySortedByLower
      (if hasSpacedAmp tag_name.toList then
        (splitAmpSpaced tag_name.toList).map (fun l => pyStrip (String.mk l))
      else
        (splitChar '&' tag_name.toList).map (fun l => pyStrip (String.mk l)))
  else [tag_name]

/-- Model of `tag_manager.get_all_used_tags` (tag_manager.py:103-123): the set of
tags applied to any section, any note inside a section, or any top-level
note, accumulated by `set.update`. -/
def get_all_used_tags (d : Document) : List String :=
  d.notes.foldl (fun a n => pyUpdate a n.tags)
    (d.sections.foldl
      (fun acc sec =>
        sec.notes.foldl (fun a n => pyUpdate a n.tags) (pyUpdate acc sec.tags))
      [])

/-- Model of `tag_manager.add_and_tag` (tag_manager.py:141-153): append when not an
exact-string member, then re-sort the deduplicated list; report whether an
append happened.  (An absent `and_tags` key is created empty first, which
the list-valued field already represents.) -/
def add_and_tag (and_tag : String) (d : Document) : Document × Bool :=
  if and_tag ∈ d.and_tags then (d, false)
  else
    ({ d with and_tags := pySortedByLower (pySet (d.and_tags ++ [and_tag])) },
      true)

/-- Model of `tag_manager.remove_and_tag` (tag_manager.py:155-166): remove the first
exact occurrence; report whether one existed. -/
def remove_and_tag (and_tag : String) (d : Document) : Document × Bool :=
  if and_tag ∈ d.and_tags then
    ({ d with and_tags := d.and_tags.erase and_tag }, true)
  else (d, false)

/-- Model of `tag_manager.update_and_tag` (tag_manager.py:168-178): remove the old
tag, and when that succeeds add the new one and re-sort the deduplicated
list. -/
def update_and_tag (old_tag new_tag : String) (d : Document) : Document × Bool :=
  if (remove_and_tag old_tag d).2 then
    ({ (add_and_tag new_tag (remove_and_tag old_tag d).1).1 with
        and_tags := pySortedByLower (pySet
          (add_and_tag new_tag (remove_and_tag old_tag d).1).1.and_tags) },
      true)
  else (d, false)

/-- Truthiness of the optional `new_tags` argument: `None` and `[]` are
falsy. -/
def newTagsTruthy : Option (List String) → Bool
  | none => false
  | some l => decide (l ≠ [])

/-- Model of `tag_manager.sync_known_tags` (tag_manager.py:180-198) **as it stands in
the source**: the function body is cut short at line 198 — the module-level
definition of `_is_category_tag` at line 199 ends it, and the remainder of
the intended body survives only as unreachable dead code at lines 213-222
inside `is_category_tag`, after that function's `return`.  What executes:
an absent `known_tags` key is created as an empty set; a list-valued
`known_tags` is copied into a fresh set (so updates to it are lost); a
set-valued `known_tags` is aliased, so truthy `new_tags` are added to it in
place (with no exclusion of `"All"`); the `category_tags` accumulator of
the final loop is computed and discarded; nothing else changes. -/
def sync_known_tags (new_tags : Option (List String)) (d : Document) : Document :=
  match d.known_tags with
  | .missing =>
    let s0 := if newTagsTruthy new_tags then pyUpdate [] (new_tags.getD []) else []
    { d with known_tags := KnownTags.set s0 }
  | .lst _ => d
  | .set s =>
    let s1 := if newTagsTruthy new_tags then pyUpdate s (new_tags.getD []) else s
    { d with known_tags := KnownTags.set s1 }

/-- The `used_tags` set built by `tag_manager.cleanup_orphan_tags`
(tag_manager.py:631-645): tags of all sections and notes, plus the tags of
every category whose stripped, lowercased name is not `uncategorized`, with
the exact strings `"all"` and `"All"` then discarded. -/
def cleanup_used_tags (d : Document) : List String :=
  (d.tag_categories.foldl
      (fun acc c =>
        if pyLower (pyStrip c.name) ∈ (["uncategorized", "Uncategorized"] : List String)
        then acc
        else pyUpdate acc c.tags)
      (get_all_used_tags d)).filter (fun t => decide (t ≠ "all" ∧ t ≠ "All"))

/-- The per-category step of `cleanup_orphan_tags` (tag_manager.py:656-662):
keep only the tags in `used_tags`, deduplicate and re-sort, then drop the
exact reserved strings. -/
def cleanupCategory (used : List String) (c : Category) : Category :=
  let kept := pySortedByLower (pySet (c.tags.filter (fun t => decide (t ∈ used))))
  { c with tags := kept.filter (fun t => decide (t ∉ (["all", "All"] : List String))) }

/-- Model of `tag_manager.cleanup_orphan_tags` (tag_manager.py:622-665): force
`known_tags` to be exactly the sorted `used_tags` set (a Python list) and
apply the per-category cleaning step to every category.  The trailing
`core.save_state()` call and the deletion log are external I/O and are
dropped. -/
def cleanup_orphan_tags (d : Document) : Document :=
  { d with
    known_tags := KnownTags.lst (pySortedByLower (cleanup_used_tags d))
    tag_categories := d.tag_categories.map (cleanupCategory (cleanup_used_tags d)) }

/-! ## content_processor.py -/

/-- A Python positional argument, as far as the embedded call sites need to
distinguish them. -/
inductive PyArg where
  | strs : List String → PyArg
  | str : String → PyArg

/-- The message of the `TypeError` raised when
`should_show_content_for_filter` is called with three positional
arguments. -/
def typeErrorMsg : String :=
  "TypeError: should_show_content_for_filter() takes 2 positional arguments but 3 were given"

/-- A Python call of `should_show_content_for_filter` with an explicit
positional-argument list.  The function has exactly two parameters
(`content_tags`, `filter_tag`; tag_manager.py:9), so any other argument
count raises `TypeError`. -/
def call_should_show_content_for_filter (args : List PyArg) :
    Except String Bool :=
  match args with
  | [PyArg.strs content_tags, PyArg.str filter_tag] =>
    .ok (should_show_content_for_filter content_tags filter_tag)
  | _ => .error typeErrorMsg

/-- Model of `content_processor._matches_filters` (content_processor.py:67-79): for
each active filter it calls `should_show_content_for_filter(content_tags,
content_categories, filter_tag)` — three positional arguments. -/
def matches_filters (content_tags : List String) (active_filters : List String)
    (content_categories : List String) : Except String Bool :=
  match active_filters with
  | [] => .ok false
  | filter_tag :: rest => do
    let r ← call_should_show_content_for_filter
      [PyArg.strs content_tags, PyArg.strs content_categories,
        PyArg.str filter_tag]
    if r then pure true else matches_filters content_tags rest content_categories

/-- The note loop of `get_filtered_sections` (content_processor.py:45-59):
a note's lowered tags are extended with the lowered tags of every category
whose name equals one of the note's category references; a note tagged
`all` is kept without calling the filter.  The per-user `completed` flag
attached at line 56 comes from the external user config and is dropped. -/
def filterNotes (d : Document) (active_filters : List String) :
    List Note → Except String (List Note)
  | [] => .ok []
  | n :: rest => do
    let note_tags := pySet (n.tags.map pyLower)
    let all_note_tags :=
      n.categories.foldl
        (fun acc cat_name =>
          d.tag_categories.foldl
            (fun a c =>
              if c.name = cat_name then pyUpdate a (c.tags.map pyLower) else a)
            acc)
        note_tags
    let keep ←
      if "all" ∈ all_note_tags then pure true
      else matches_filters all_note_tags active_filters n.categories
    let rest' ← filterNotes d active_filters rest
    pure (if keep then n :: rest' else rest')

/-- The section loop of `get_filtered_sections`
(content_processor.py:33-65): a section whose lowered tag set contains
`all` is emitted whole; otherwise the section is matched, its notes are
filtered, and it is emitted (with only the visible notes) when it matches
or some note does. -/
def filterSections (d : Document) (active_filters : List String) :
    List Section → Except String (List Section)
  | [] => .ok []
  | s :: rest =>
    let section_tags := pySet (s.tags.map pyLower)
    if "all" ∈ section_tags then do
      let r ← filterSections d active_filters rest
      pure (s :: r)
    else do
      let section_matches ← matches_filters section_tags active_filters s.categories
      let visible ← filterNotes d active_filters s.notes
      let r ← filterSections d active_filters rest
      pure (if section_matches || !visible.isEmpty
        then { s with notes := visible } :: r else r)

/-- Model of `content_processor.get_filtered_sections` (content_processor.py:11-65):
the identity on sections when no filter is active, else the section loop.
(The user-config lookup at lines 25-31 is external I/O with no effect on
the returned sections.) -/
def get_filtered_sections (d : Document) (active_filters : List String) :
    Except String (List Section) :=
  if active_filters = [] then .ok d.sections
  else filterSections d active_filters d.sections

/-! ## state_manager.py and views.py -/

/-- Model of `state_manager.create_default_state` (state_manager.py:168-179): a fresh
document whose `known_tags` is the Python set `{"All"}` and whose single
category is `Uncategorized` containing `"All"`.  The generated UUID is
outside the model and passed in; the `save_state` call is external I/O. -/
def create_default_state (state_name : String) (uncat_id : String) : Document :=
  { documentTitle := state_name
    sections := []
    notes := []
    known_tags := .set ["All"]
    tag_categories := [{ id := uncat_id, name := "Uncategorized", tags := ["All"] }]
    and_tags := [] }

/-- Model of `views.import_clear` (views.py:1166-1176), after its `load_state`
succeeded: clear the sections, set `known_tags` to the Python set
`{"All"}`, and reset the categories to a single `Uncategorized` holding
`"All"`. -/
def import_clear (d : Document) (uncat_id : String) : Document :=
  { d with
    sections := []
    known_tags := .set ["All"]
    tag_categories := [{ id := uncat_id, name := "Uncategorized", tags := ["All"] }] }

/-- Model of `state_manager.get_filename_from_state_name` (state_manager.py:20-26):
replace spaces with underscores, drop every character outside
`[a-zA-Z0-9_-]`, append `.json`. -/
def get_filename_from_state_name (state_name : String) : String :=
  String.mk
    ((state_name.toList.map (fun c => if c = ' ' then '_' else c)).filter
      (fun c => c.isAlphanum || c = '_' || c = '-')) ++ ".json"

/-- The observable outcome of `views.delete_state`: the flash messages it
issues (message text, level) and the path of the file it removes, if any. -/
structure DeleteStateResult where
  flashes : List (String × String)
  removed : Option String
deriving DecidableEq

/-- Model of `views.delete_state` (views.py:168-203): no target → nothing happens;
at most one available state → flash `Cannot delete the last remaining
state.` and remove nothing; otherwise remove the target's file when it
exists, else flash not-found.  `available_states` is the directory listing
`get_available_states` returns and `existing_files` the set of paths for
which `os.path.exists` holds; both are external filesystem inputs. -/
def delete_state (state_to_delete : String) (available_states : List String)
    (existing_files : List String) : DeleteStateResult :=
  if state_to_delete = "" then { flashes := [], removed := none }
  else if available_states.length ≤ 1 then
    { flashes := [("Cannot delete the last remaining state.", "error")]
      removed := none }
  else
    let filepath := "states/" ++ get_filename_from_state_name state_to_delete
    if filepath ∈ existing_files then
      { flashes := [("State \x27" ++ state_to_delete ++ "\x27 deleted.", "success")]
        removed := some filepath }
    else
      { flashes := [("State \x27" ++ state_to_delete ++ "\x27 not found.", "error")]
        removed := none }

/-! ## The global rename/remove operations (modelled from the spec)

`views.remove_tag_globally` (views.py:958-974) and
`views.rename_tag_globally` (views.py:976-993) call
`tag_manager.remove_tag_globally` and `tag_manager.rename_tag_globally`,
but no definition of either function exists under `src/` — only these
callers.  The definitions below are therefore modelled from the
specification. -/

/-- Is `tag` present, by exact string, in any section tag list, note tag
list, or category tag list? -/
def tag_found_anywhere (d : Document) (tag : String) : Bool :=
  d.sections.any (fun s =>
    s.tags.contains tag || s.notes.any (fun n => n.tags.contains tag)) ||
  d.tag_categories.any (fun c => c.tags.contains tag)

/-- Replace `old_tag` by `new_tag` in a tag list and deduplicate the
result. -/
def renameInList (old_tag new_tag : String) (l : List String) : List String :=
  pySet (l.map (fun t => if t = old_tag then new_tag else t))

/-- Modelled from the spec: `tag_manager.rename_tag_globally` is missing
from `src/` (only its caller `views.rename_tag_globally` is present).  Per
§4.1 it "replaces `old` with `new` in every Section tag list, Note tag
list, and Category tag list; fails (`success=false`) if `old == new` or
`old` not found anywhere; on success, deduplicates destination lists,
re-sorts categories"; per invariant 5 and §8, `"All"` is never a rename
target and `rename_tag_globally("All", "Everything")` fails with
`success=false`; per §4.1's failure semantics, failed operations are
no-ops.  The human-readable message of the `{success, message}` result is
unspecified and omitted. -/
def rename_tag_globally (d : Document) (old_tag new_tag : String) :
    Document × Bool :=
  if old_tag = new_tag then (d, false)
  else if pyLower old_tag = "all" then (d, false)
  else if !tag_found_anywhere d old_tag then (d, false)
  else
    ({ d with
        sections := d.sections.map (fun s =>
          { s with
            tags := renameInList old_tag new_tag s.tags
            notes := s.notes.map (fun n =>
              { n with tags := renameInList old_tag new_tag n.tags }) })
        tag_categories := d.tag_categories.map (fun c =>
          { c with tags := pySortedByLower (renameInList old_tag new_tag c.tags) }) },
      true)

/-- Remove `tag` from every tag list of the document, from `known_tags`
(preserving its representation) and from `and_tags`. -/
def removeTagEverywhere (d : Document) (tag : String) : Document :=
  { d with
    sections := d.sections.map (fun s =>
      { s with
        tags := s.tags.filter (fun t => decide (t ≠ tag))
        notes := s.notes.map (fun n =>
          { n with tags := n.tags.filter (fun t => decide (t ≠ tag)) }) })
    notes := d.notes.map (fun n =>
      { n with tags := n.tags.filter (fun t => decide (t ≠ tag)) })
    known_tags :=
      match d.known_tags with
      | .missing => .missing
      | .lst l => .lst (l.filter (fun t => decide (t ≠ tag)))
      | .set s => .set (s.filter (fun t => decide (t ≠ tag)))
    tag_categories := d.tag_categories.map (fun c =>
      { c with tags := c.tags.filter (fun t => decide (t ≠ tag)) })
    and_tags := d.and_tags.filter (fun t => decide (t ≠ tag)) }

/-- Is `component` still referenced: used standalone in content or a
category, or a component of some registered AND tag? -/
def component_referenced (d : Document) (component : String) : Bool :=
  tag_found_anywhere d component ||
  d.and_tags.any (fun a => (parse_and_tag_components a).contains component)

/-- Modelled from the spec: `tag_manager.remove_tag_globally` is missing
from `src/` (only its caller `views.remove_tag_globally` is present).  Per
§4.1 it "removes `tag` everywhere (Sections, Notes, Categories,
`known_tags`, `and_tags`); if `tag` contains `&` ..., additionally removes
any of its components that become unreferenced elsewhere ... exactly one
level"; per invariant 5 and §8, `remove_tag_globally("All")` fails with
`success=false`, and failed operations are no-ops.  The message of the
`{success, message}` result is unspecified and omitted. -/
def remove_tag_globally (d : Document) (tag : String) : Document × Bool :=
  if pyLower tag = "all" then (d, false)
  else
    let d1 := removeTagEverywhere d tag
    if tag.toList.contains '&' then
      ((parse_and_tag_components tag).foldl
        (fun acc c =>
          if component_referenced acc c then acc else removeTagEverywhere acc c)
        d1,
        true)
    else (d1, true)

/-! ## Specification-side predicates and example documents -/

/-- The spec's "tag used by some Section or Note": `t` appears in the tag
list of a section, of a note inside a section, or of a top-level note. -/
def used_in_content (d : Document) (t : String) : Prop :=
  (∃ s ∈ d.sections, t ∈ s.tags ∨ ∃ n ∈ s.notes, t ∈ n.tags) ∨
  ∃ n ∈ d.notes, t ∈ n.tags

/-- Tag `t` is assigned to a category that is not (case-insensitively, after
stripping) the `Uncategorized` catch-all. -/
def in_non_uncat_category (d : Document) (t : String) : Prop :=
  ∃ c ∈ d.tag_categories,
    pyLower (pyStrip c.name) ∉ (["uncategorized", "Uncategorized"] : List String) ∧
    t ∈ c.tags

/-- Case-insensitive sortedness, the order every category tag list and the
`and_tags` registry are kept in. -/
def sortedCI (l : List String) : Prop := l.Pairwise (fun a b => lowerLe a b = true)

instance (d : Document) (t : String) : Decidable (used_in_content d t) := by
  unfold used_in_content; infer_instance

instance (d : Document) (t : String) : Decidable (in_non_uncat_category d t) := by
  unfold in_non_uncat_category; infer_instance

/-- A section with the given tags and no notes, for concrete instances. -/
def exampleSection (tags : List String) : Section :=
  { id := "s1", tags := tags, categories := [], notes := [] }

/-- An `Uncategorized` category with the given tags. -/
def uncategorized (tags : List String) : Category :=
  { id := "c1", name := "Uncategorized", tags := tags }

/-- A document built from the varying parts, for concrete instances. -/
def mkDoc (sections : List Section) (kt : KnownTags) (cats : List Category)
    (ands : List String) : Document :=
  { documentTitle := "Doc"
    sections := sections
    notes := []
    known_tags := kt
    tag_categories := cats
    and_tags := ands }

/-- C1's failing input: one section tagged `x`, list-valued empty
`known_tags`, an empty `Uncategorized`. -/
def c1_doc : Document := mkDoc [exampleSection ["x"]] (.lst []) [uncategorized []] []

/-- The same document with a set-valued empty `known_tags`. -/
def c1_doc_set : Document := mkDoc [exampleSection ["x"]] (.set []) [uncategorized []] []

/-- C2's input: registered AND tag `a&b`, its components known and in
`Uncategorized`, no content. -/
def c2_doc : Document := mkDoc [] (.lst ["a", "b"]) [uncategorized ["a", "b"]] ["a&b"]

/-- C4's failing input: one section tagged `x` and `y`. -/
def c4_doc : Document :=
  mkDoc [exampleSection ["x", "y"]] (.lst ["x", "y"]) [uncategorized ["x", "y"]] []

/-- C8's witness input: one (plain-filter) section tagged `x`. -/
def c8_doc : Document := mkDoc [exampleSection ["x"]] (.lst ["x"]) [uncategorized ["x"]] []

/-- C9's input: the registry already holds the AND tag `a&b`. -/
def c9_doc : Document := mkDoc [] (.lst []) [] ["a&b"]

/-! ## Properties of the ordering and set primitives -/

theorem lexLe_refl (a : List Char) : lexLe a a = true := by
  induction a with
  | nil => rfl
  | cons x xs ih => simp [lexLe, ih]

theorem lexLe_total (a b : List Char) : lexLe a b = true ∨ lexLe b a = true := by
  induction a generalizing b with
  | nil => exact Or.inl rfl
  | cons x xs ih =>
    cases b with
    | nil => exact Or.inr rfl
    | cons y ys =>
      by_cases hxy : x = y
      · subst hxy
        rcases ih ys with h | h
        · exact Or.inl (by simp [lexLe, h])
        · exact Or.inr (by simp [lexLe, h])
      · have hyx : ¬ y = x := fun h => hxy h.symm
        rcases lt_trichotomy x y with h | h | h
        · exact Or.inl (by simp [lexLe, hxy, h])
        · exact absurd h hxy
        · exact Or.inr (by simp [lexLe, hyx, h])

theorem lexLe_trans {a b c : List Char} (h1 : lexLe a b = true)
    (h2 : lexLe b c = true) : lexLe a c = true := by
  induction a generalizing b c with
  | nil => rfl
  | cons x xs ih =>
    cases b with
    | nil => simp [lexLe] at h1
    | cons y ys =>
      cases c with
      | nil => simp [lexLe] at h2
      | cons z zs =>
        by_cases hxy : x = y <;> by_cases hyz : y = z
        · subst hxy; subst hyz
          simp only [lexLe, if_pos rfl] at h1 h2 ⊢
          exact ih h1 h2
        · subst hxy
          simp only [lexLe, if_pos rfl, if_neg hyz] at h2 ⊢
          exact h2
        · subst hyz
          simp only [lexLe, if_pos rfl, if_neg hxy] at h1 ⊢
          exact h1
        · simp only [lexLe, if_neg hxy, if_neg hyz] at h1 h2
          have hxz : x < z := lt_trans (of_decide_eq_true h1) (of_decide_eq_true h2)
          simp [lexLe, ne_of_lt hxz, hxz]

theorem lexLt_eq_not_lexLe (a b : List Char) : lexLt a b = !lexLe b a := by
  induction a generalizing b with
  | nil => cases b <;> rfl
  | cons x xs ih =>
    cases b with
    | nil => rfl
    | cons y ys =>
      by_cases hxy : x = y
      · subst hxy
        simp only [lexLt, lexLe, if_pos rfl]
        exact ih ys
      · have hyx : ¬ y = x := fun h => hxy h.symm
        simp only [lexLt, lexLe, if_neg hxy, if_neg hyx]
        rcases lt_trichotomy x y with h | h | h
        · simp [h, asymm h]
        · exact absurd h hxy
        · simp [h, asymm h]

theorem lowerLe_total (a b : String) : lowerLe a b = true ∨ lowerLe b a = true :=
  lexLe_total (lowerChars a) (lowerChars b)

theorem lowerLe_trans {a b c : String} (h1 : lowerLe a b = true)
    (h2 : lowerLe b c = true) : lowerLe a c = true :=
  lexLe_trans h1 h2

theorem lowerLt_eq_not_lowerLe (a b : String) : lowerLt a b = !lowerLe b a :=
  lexLt_eq_not_lexLe (lowerChars a) (lowerChars b)

theorem lowerLe_of_lowerLt {a b : String} (h : lowerLt a b = true) :
    lowerLe a b = true := by
  rw [lowerLt_eq_not_lowerLe] at h
  rcases lowerLe_total a b with h2 | h2
  · exact h2
  · rw [h2] at h; simp at h

theorem lowerLe_of_not_lowerLt {a b : String} (h : ¬ lowerLt b a = true) :
    lowerLe a b = true := by
  rw [lowerLt_eq_not_lowerLe] at h
  rcases lowerLe_total a b with h2 | h2
  · exact h2
  · cases hab : lowerLe a b
    · rw [hab] at h; simp at h
    · rfl

theorem mem_pyUpdate {s l : List String} {a : String} :
    a ∈ pyUpdate s l ↔ a ∈ s ∨ a ∈ l := by
  induction l generalizing s with
  | nil => simp [pyUpdate]
  | cons x xs ih =>
    have hstep : pyUpdate s (x :: xs) = pyUpdate (if x ∈ s then s else s ++ [x]) xs := rfl
    rw [hstep]
    by_cases hx : x ∈ s
    · rw [if_pos hx, ih]
      constructor
      · rintro (h | h)
        · exact Or.inl h
        · exact Or.inr (List.mem_cons_of_mem _ h)
      · rintro (h | h)
        · exact Or.inl h
        · rcases List.mem_cons.mp h with rfl | h
          · exact Or.inl hx
          · exact Or.inr h
    · rw [if_neg hx, ih]
      simp only [List.mem_append, List.mem_singleton, List.mem_cons]
      tauto

theorem nodup_pyUpdate {s : List String} (l : List String) (hs : s.Nodup) :
    (pyUpdate s l).Nodup := by
  induction l generalizing s with
  | nil => exact hs
  | cons x xs ih =>
    have hstep : pyUpdate s (x :: xs) = pyUpdate (if x ∈ s then s else s ++ [x]) xs := rfl
    rw [hstep]
    by_cases hx : x ∈ s
    · rw [if_pos hx]; exact ih hs
    · rw [if_neg hx]
      refine ih ?_
      rw [List.nodup_append]
      exact ⟨hs, List.nodup_singleton x,
        fun a ha hax => hx ((List.mem_singleton.mp hax) ▸ ha)⟩

theorem mem_pySet {l : List String} {a : String} : a ∈ pySet l ↔ a ∈ l := by
  rw [pySet, mem_pyUpdate]; simp

theorem nodup_pySet (l : List String) : (pySet l).Nodup :=
  nodup_pyUpdate l List.nodup_nil

theorem mem_insertByLower {x a : String} {l : List String} :
    a ∈ insertByLower x l ↔ a = x ∨ a ∈ l := by
  induction l with
  | nil => simp [insertByLower]
  | cons y ys ih =>
    simp only [insertByLower]
    split
    · rw [List.mem_cons, ih, List.mem_cons]
      tauto
    · rw [List.mem_cons, List.mem_cons]

theorem insertByLower_perm (x : String) (l : List String) :
    (insertByLower x l).Perm (x :: l) := by
  induction l with
  | nil => exact List.Perm.refl _
  | cons y ys ih =>
    simp only [insertByLower]
    split
    · exact (ih.cons y).trans (List.Perm.swap x y ys)
    · exact List.Perm.refl _

theorem pySortedByLower_perm (l : List String) : (pySortedByLower l).Perm l := by
  induction l with
  | nil => exact List.Perm.refl _
  | cons x xs ih =>
    have hstep : pySortedByLower (x :: xs) = insertByLower x (pySortedByLower xs) := rfl
    rw [hstep]
    exact (insertByLower_perm x _).trans (ih.cons x)

theorem mem_pySortedByLower {l : List String} {a : String} :
    a ∈ pySortedByLower l ↔ a ∈ l :=
  (pySortedByLower_perm l).mem_iff

theorem nodup_pySortedByLower {l : List String} (h : l.Nodup) :
    (pySortedByLower l).Nodup :=
  ((pySortedByLower_perm l).nodup_iff).mpr h

theorem sortedCI_insertByLower {x : String} {l : List String} (h : sortedCI l) :
    sortedCI (insertByLower x l) := by
  induction l with
  | nil => simp [insertByLower, sortedCI]
  | cons y ys ih =>
    rcases List.pairwise_cons.mp h with ⟨hy, hys⟩
    simp only [insertByLower]
    split
    · rename_i hlt
      refine List.pairwise_cons.mpr ⟨?_, ih hys⟩
      intro b hb
      rcases mem_insertByLower.mp hb with rfl | hb
      · exact lowerLe_of_lowerLt hlt
      · exact hy b hb
    · rename_i hnlt
      refine List.pairwise_cons.mpr ⟨?_, h⟩
      intro b hb
      rcases List.mem_cons.mp hb with rfl | hb
      · exact lowerLe_of_not_lowerLt (by simp [hnlt])
      · exact lowerLe_trans (lowerLe_of_not_lowerLt (by simp [hnlt])) (hy b hb)

theorem sortedCI_pySortedByLower (l : List String) : sortedCI (pySortedByLower l) := by
  induction l with
  | nil => exact List.Pairwise.nil
  | cons x xs ih =>
    have hstep : pySortedByLower (x :: xs) = insertByLower x (pySortedByLower xs) := rfl
    rw [hstep]
    exact sortedCI_insertByLower ih

theorem pySortedByLower_eq_self {l : List String} (h : sortedCI l) :
    pySortedByLower l = l := by
  induction l with
  | nil => rfl
  | cons x xs ih =>
    rcases List.pairwise_cons.mp h with ⟨hx, hxs⟩
    have hstep : pySortedByLower (x :: xs) = insertByLower x (pySortedByLower xs) := rfl
    rw [hstep, ih hxs]
    cases xs with
    | nil => rfl
    | cons y ys =>
      have hle : lowerLe x y = true := hx y (by simp)
      have hlt : lowerLt y x = false := by
        rw [lowerLt_eq_not_lowerLe, hle]; rfl
      simp [insertByLower, hlt]

/-! ## Unfolding equations for `cleanup_orphan_tags` -/

theorem cleanup_orphan_tags_known_tags (d : Document) :
    (cleanup_orphan_tags d).known_tags =
      KnownTags.lst (pySortedByLower (cleanup_used_tags d)) := rfl

theorem cleanup_orphan_tags_tag_categories (d : Document) :
    (cleanup_orphan_tags d).tag_categories =
      d.tag_categories.map (cleanupCategory (cleanup_used_tags d)) := rfl

/-! ## Claim theorems (first group) -/

/-- Claim C7: `sync_known_tags()` called with no arguments twice in a row is
idempotent: the document after the second call equals the document after
the first.  (As the function stands — see C1 — a no-argument call only
materialises an absent `known_tags` key as an empty set, and a second call
changes nothing.) -/
theorem sync_known_tags_idempotent (d : Document) :
    sync_known_tags none (sync_known_tags none d) = sync_known_tags none d := by
  obtain ⟨title, secs, notes, kt, cats, ands⟩ := d
  cases kt <;> rfl

/-- Claim C1: The claim fails on the code: `sync_known_tags` is truncated at
tag_manager.py:198 (its intended remainder is dead code inside
`is_category_tag`), so on a document with a section tagged `x`, an empty
list-valued `known_tags` and an empty `Uncategorized` category, a call
leaves the document unchanged — `known_tags` does not become the union of
used tags, and `x` is not added to `Uncategorized`.  Moreover, with a
set-valued `known_tags`, supplied `new_tags` are added without the claimed
exclusion of `"All"`. -/
theorem sync_known_tags_truncated :
    sync_known_tags none c1_doc = c1_doc ∧
    "x" ∈ get_all_used_tags c1_doc ∧
    "x" ∉ (sync_known_tags none c1_doc).known_tags.elems ∧
    (∀ c ∈ (sync_known_tags none c1_doc).tag_categories, "x" ∉ c.tags) ∧
    (sync_known_tags (some ["All"]) c1_doc_set).known_tags = KnownTags.set ["All"] :=
  ⟨rfl, by decide, by decide, by decide, rfl⟩

/-- Claim C4: At the level of `should_show_content_for_filter`, content
tagged `["x","y"]` matches the AND filter `"x&y"` and not `"x&z"`; but
`get_filtered_sections` never applies this matching: on a document with a
section tagged `x`,`y` and any non-empty filter list it propagates the
`TypeError` from `_matches_filters`' three-argument call. -/
theorem and_filter_matching_crashes :
    should_show_content_for_filter ["x", "y"] "x&y" = true ∧
    should_show_content_for_filter ["x", "y"] "x&z" = false ∧
    get_filtered_sections c4_doc ["x&y"] = .error typeErrorMsg ∧
    get_filtered_sections c4_doc ["x&z"] = .error typeErrorMsg :=
  ⟨by decide, by decide, rfl, rfl⟩

/-- Claim C5, counterexample: The claim is false as stated: the document
produced by `create_default_state` (and likewise by `import_clear`) has
the reserved tag `"All"` as a member of `known_tags`. -/
theorem all_in_create_default_known_tags :
    "All" ∈ (create_default_state "Default_State" "u1").known_tags.elems ∧
    "All" ∈ (import_clear (create_default_state "Default_State" "u1") "u2").known_tags.elems :=
  ⟨by decide, by decide⟩

/-- Claim C5, amended: `create_default_state` and `import_clear` initialise
`known_tags` to exactly the set `{"All"}`; the recomputation path
(`cleanup_orphan_tags`) on the other hand never lets `"All"` into
`known_tags`. -/
theorem reserved_tag_all_lifecycle :
    (∀ state_name uncat_id,
      (create_default_state state_name uncat_id).known_tags = KnownTags.set ["All"]) ∧
    (∀ (d : Document) uncat_id,
      (import_clear d uncat_id).known_tags = KnownTags.set ["All"]) ∧
    (∀ d : Document, "All" ∉ (cleanup_orphan_tags d).known_tags.elems) := by
  refine ⟨fun _ _ => rfl, fun _ _ => rfl, fun d hmem => ?_⟩
  rw [cleanup_orphan_tags_known_tags] at hmem
  have h2 : "All" ∈ cleanup_used_tags d := mem_pySortedByLower.mp hmem
  have h3 := (List.mem_filter.mp h2).2
  simp at h3

/-- Witness for C5 (amended): after cleanup of `c1_doc`, the reserved tag
is absent from `known_tags`. -/
theorem reserved_tag_all_lifecycle_witness :
    "All" ∉ (cleanup_orphan_tags c1_doc).known_tags.elems :=
  reserved_tag_all_lifecycle.2.2 c1_doc

/-- Claim C6: (Modelled from the spec; `tag_manager.rename_tag_globally` and
`tag_manager.remove_tag_globally` are absent from `src/`.)  Renaming the
reserved tag via `rename_tag_globally("All", "Everything")` and removing
it via `remove_tag_globally("All")` both return `success = false` and
leave the document unchanged. -/
theorem reserved_all_rename_remove_noop (d : Document) :
    rename_tag_globally d "All" "Everything" = (d, false) ∧
    remove_tag_globally d "All" = (d, false) := by
  constructor
  · unfold rename_tag_globally
    rw [if_neg (by decide : ¬ ("All" : String) = "Everything"),
      if_pos (by decide : pyLower "All" = "all")]
  · unfold remove_tag_globally
    rw [if_pos (by decide : pyLower "All" = "all")]

/-- Claim C10: `delete_state` refuses to delete when at most one state file
exists — it flashes `Cannot delete the last remaining state.` and removes
no file — and a file is removed only when at least two states are
available. -/
theorem delete_state_guard (state_to_delete : String)
    (available_states existing_files : List String) (h : state_to_delete ≠ "") :
    (available_states.length ≤ 1 →
      delete_state state_to_delete available_states existing_files =
        { flashes := [("Cannot delete the last remaining state.", "error")]
          removed := none }) ∧
    (∀ f, (delete_state state_to_delete available_states existing_files).removed = some f →
      2 ≤ available_states.length) := by
  constructor
  · intro hle
    unfold delete_state
    rw [if_neg h, if_pos hle]
  · intro f hf
    by_contra hlt
    have hle : available_states.length ≤ 1 := by omega
    unfold delete_state at hf
    rw [if_neg h, if_pos hle] at hf
    simp at hf

/-- Witness for C10: with one available state, deleting state `A` is
refused with the exact message and no removal. -/
theorem delete_state_guard_witness :
    ("A" : String) ≠ "" ∧
    delete_state "A" ["A.json"] [] =
      { flashes := [("Cannot delete the last remaining state.", "error")]
        removed := none } :=
  ⟨by decide, (delete_state_guard "A" ["A.json"] [] (by decide)).1 (by decide)⟩

/-- Claim C2, counterexample: The claim is false as stated: `a` is a
component of the registered AND tag `a&b` and is present in `known_tags`
and in `Uncategorized`, yet `cleanup_orphan_tags` removes it from both —
the code consults `and_tags` nowhere and grants components no exemption. -/
theorem cleanup_removes_and_components :
    "a&b" ∈ c2_doc.and_tags ∧
    "a" ∈ parse_and_tag_components "a&b" ∧
    "a" ∈ c2_doc.known_tags.elems ∧
    "a" ∉ (cleanup_orphan_tags c2_doc).known_tags.elems ∧
    "a" ∉ ((cleanup_orphan_tags c2_doc).tag_categories.map Category.tags).flatten := by
  decide

/-- Claim C3, counterexample: The claim is false as stated: for
`T = ["a&b"]` (one tag that itself contains `&`),
`parse_and_tag_components(combine_tags_to_and(T))` is `["a","b"]`, not the
sorted duplicate-free list `["a&b"]` of `T`'s elements. -/
theorem parse_combine_amp_tag :
    combine_tags_to_and ["a&b"] = "a&b" ∧
    parse_and_tag_components (combine_tags_to_and ["a&b"]) = ["a", "b"] ∧
    parse_and_tag_components (combine_tags_to_and ["a&b"]) ≠
      pySortedByLower (pySet ["a&b"]) := by
  decide

/-- Claim C9: `add_and_tag(t)` returns `True` and inserts `t` exactly when
`t` is not an exact-string member of `and_tags` (and then the list is the
sorted deduplication of the old list with `t` appended), returns `False`
leaving the document unchanged otherwise; after a mutating `add_and_tag`
or `update_and_tag` the registry is duplicate-free and sorted
case-insensitively, and a failed `update_and_tag` is a no-op.  Because
membership is exact-string, `A&B` joins a registry already holding
`a&b`. -/
theorem and_tags_registry (d : Document) (t old_tag new_tag : String) :
    ((add_and_tag t d).2 = true ↔ t ∉ d.and_tags) ∧
    (t ∉ d.and_tags →
      (add_and_tag t d).1.and_tags = pySortedByLower (pySet (d.and_tags ++ [t])) ∧
      t ∈ (add_and_tag t d).1.and_tags ∧
      sortedCI ((add_and_tag t d).1.and_tags) ∧
      ((add_and_tag t d).1.and_tags).Nodup) ∧
    (t ∈ d.and_tags → add_and_tag t d = (d, false)) ∧
    ((update_and_tag old_tag new_tag d).2 = true →
      sortedCI ((update_and_tag old_tag new_tag d).1.and_tags) ∧
      ((update_and_tag old_tag new_tag d).1.and_tags).Nodup) ∧
    ((update_and_tag old_tag new_tag d).2 = false →
      (update_and_tag old_tag new_tag d).1 = d) ∧
    ("A&B" ∈ (add_and_tag "A&B" c9_doc).1.and_tags ∧
      "a&b" ∈ (add_and_tag "A&B" c9_doc).1.and_tags) := by
  refine ⟨?_, ?_, ?_, ?_, ?_, by decide, by decide⟩
  · by_cases ht : t ∈ d.and_tags <;> simp [add_and_tag, ht]
  · intro ht
    have hstep : add_and_tag t d =
        ({ d with and_tags := pySortedByLower (pySet (d.and_tags ++ [t])) }, true) := by
      rw [add_and_tag, if_neg ht]
    rw [hstep]
    exact ⟨rfl, mem_pySortedByLower.mpr (mem_pySet.mpr (by simp)),
      sortedCI_pySortedByLower _, nodup_pySortedByLower (nodup_pySet _)⟩
  · intro ht
    simp [add_and_tag, ht]
  · intro hu
    unfold update_and_tag at hu ⊢
    by_cases hr : (remove_and_tag old_tag d).2 = true
    · rw [if_pos hr]
      exact ⟨sortedCI_pySortedByLower _, nodup_pySortedByLower (nodup_pySet _)⟩
    · rw [if_neg hr] at hu
      exact absurd hu Bool.false_ne_true
  · intro hu
    unfold update_and_tag at hu ⊢
    by_cases hr : (remove_and_tag old_tag d).2 = true
    · rw [if_pos hr] at hu
      exact absurd hu (by simp)
    · rw [if_neg hr]

/-- Witness for C9: adding `x&y` to a registry holding only `a&b`
succeeds and the new tag is a member afterwards. -/
theorem and_tags_registry_witness :
    "x&y" ∉ c9_doc.and_tags ∧ "x&y" ∈ (add_and_tag "x&y" c9_doc).1.and_tags :=
  ⟨by decide, ((and_tags_registry c9_doc "x&y" "" "").2.1 (by decide)).2.1⟩

/-! ## Membership in the used-tag sets -/

theorem mem_foldl_pyUpdate_notes {notes : List Note} {acc : List String}
    {t : String} :
    t ∈ notes.foldl (fun a n => pyUpdate a n.tags) acc ↔
      t ∈ acc ∨ ∃ n ∈ notes, t ∈ n.tags := by
  induction notes generalizing acc with
  | nil => simp
  | cons n ns ih =>
    rw [List.foldl_cons, ih]
    constructor
    · rintro (h | ⟨m, hm, ht⟩)
      · rcases mem_pyUpdate.mp h with h | h
        · exact Or.inl h
        · exact Or.inr ⟨n, by simp, h⟩
      · exact Or.inr ⟨m, List.mem_cons_of_mem _ hm, ht⟩
    · rintro (h | ⟨m, hm, ht⟩)
      · exact Or.inl (mem_pyUpdate.mpr (Or.inl h))
      · rcases List.mem_cons.mp hm with rfl | hm
        · exact Or.inl (mem_pyUpdate.mpr (Or.inr ht))
        · exact Or.inr ⟨m, hm, ht⟩

theorem mem_foldl_pyUpdate_sections {sections : List Section} {acc : List String}
    {t : String} :
    t ∈ sections.foldl
        (fun acc2 sec =>
          sec.notes.foldl (fun a n => pyUpdate a n.tags) (pyUpdate acc2 sec.tags))
        acc ↔
      t ∈ acc ∨ ∃ s ∈ sections, t ∈ s.tags ∨ ∃ n ∈ s.notes, t ∈ n.tags := by
  induction sections generalizing acc with
  | nil => simp
  | cons s ss ih =>
    rw [List.foldl_cons, ih, mem_foldl_pyUpdate_notes, mem_pyUpdate]
    constructor
    · rintro (((h | h) | ⟨n, hn, ht⟩) | ⟨s2, hs2, h⟩)
      · exact Or.inl h
      · exact Or.inr ⟨s, by simp, Or.inl h⟩
      · exact Or.inr ⟨s, by simp, Or.inr ⟨n, hn, ht⟩⟩
      · exact Or.inr ⟨s2, List.mem_cons_of_mem _ hs2, h⟩
    · rintro (h | ⟨s2, hs2, h⟩)
      · exact Or.inl (Or.inl (Or.inl h))
      · rcases List.mem_cons.mp hs2 with rfl | hs2
        · rcases h with h | ⟨n, hn, ht⟩
          · exact Or.inl (Or.inl (Or.inr h))
          · exact Or.inl (Or.inr ⟨n, hn, ht⟩)
        · exact Or.inr ⟨s2, hs2, h⟩

theorem mem_get_all_used_tags {d : Document} {t : String} :
    t ∈ get_all_used_tags d ↔ used_in_content d t := by
  unfold get_all_used_tags used_in_content
  rw [mem_foldl_pyUpdate_notes, mem_foldl_pyUpdate_sections]
  simp only [List.not_mem_nil, false_or]

theorem mem_foldl_pyUpdate_cats {cats : List Category} {acc : List String}
    {t : String} :
    t ∈ cats.foldl
        (fun acc2 c =>
          if pyLower (pyStrip c.name) ∈ (["uncategorized", "Uncategorized"] : List String)
          then acc2
          else pyUpdate acc2 c.tags)
        acc ↔
      t ∈ acc ∨ ∃ c ∈ cats,
        pyLower (pyStrip c.name) ∉ (["uncategorized", "Uncategorized"] : List String) ∧
        t ∈ c.tags := by
  induction cats generalizing acc with
  | nil => simp
  | cons c cs ih =>
    rw [List.foldl_cons, ih]
    by_cases hc : pyLower (pyStrip c.name) ∈ (["uncategorized", "Uncategorized"] : List String)
    · rw [if_pos hc]
      constructor
      · rintro (h | ⟨c2, hc2, hcond, ht⟩)
        · exact Or.inl h
        · exact Or.inr ⟨c2, List.mem_cons_of_mem _ hc2, hcond, ht⟩
      · rintro (h | ⟨c2, hc2, hcond, ht⟩)
        · exact Or.inl h
        · rcases List.mem_cons.mp hc2 with rfl | hc2
          · exact absurd hc hcond
          · exact Or.inr ⟨c2, hc2, hcond, ht⟩
    · rw [if_neg hc]
      constructor
      · rintro (h | ⟨c2, hc2, hcond, ht⟩)
        · rcases mem_pyUpdate.mp h with h | h
          · exact Or.inl h
          · exact Or.inr ⟨c, by simp, hc, h⟩
        · exact Or.inr ⟨c2, List.mem_cons_of_mem _ hc2, hcond, ht⟩
      · rintro (h | ⟨c2, hc2, hcond, ht⟩)
        · exact Or.inl (mem_pyUpdate.mpr (Or.inl h))
        · rcases List.mem_cons.mp hc2 with rfl | hc2
          · exact Or.inl (mem_pyUpdate.mpr (Or.inr ht))
          · exact Or.inr ⟨c2, hc2, hcond, ht⟩

theorem mem_cleanup_used_tags {d : Document} {t : String} :
    t ∈ cleanup_used_tags d ↔
      (used_in_content d t ∨ in_non_uncat_category d t) ∧
      t ≠ "all" ∧ t ≠ "All" := by
  unfold cleanup_used_tags
  rw [List.mem_filter, mem_foldl_pyUpdate_cats, mem_get_all_used_tags]
  unfold in_non_uncat_category
  simp only [decide_eq_true_eq]

theorem mem_cleanupCategory_tags {used : List String} {c : Category} {t : String} :
    t ∈ (cleanupCategory used c).tags ↔
      t ∈ c.tags ∧ t ∈ used ∧ t ∉ (["all", "All"] : List String) := by
  simp only [cleanupCategory]
  rw [List.mem_filter, mem_pySortedByLower, mem_pySet, List.mem_filter]
  simp only [decide_eq_true_eq]
  tauto

/-- Claim C2, amended: `cleanup_orphan_tags` keeps in `known_tags` and in
every category exactly the tags used by some section or note **or
assigned to a non-`Uncategorized` category** (excluding the exact strings
`"all"`/`"All"`), and grants components of registered AND tags **no
exemption**: an AND-tag component that is not otherwise used is removed. -/
theorem cleanup_orphan_tags_spec (d : Document) (t : String) :
    (t ∈ (cleanup_orphan_tags d).known_tags.elems ↔
      (used_in_content d t ∨ in_non_uncat_category d t) ∧ t ≠ "all" ∧ t ≠ "All") ∧
    (∀ c ∈ d.tag_categories, ∃ c2 ∈ (cleanup_orphan_tags d).tag_categories,
      c2.id = c.id ∧ c2.name = c.name ∧
      (t ∈ c2.tags ↔ t ∈ c.tags ∧
        (used_in_content d t ∨ in_non_uncat_category d t) ∧ t ≠ "all" ∧ t ≠ "All")) ∧
    (∀ a ∈ d.and_tags, t ∈ parse_and_tag_components a →
      ¬ used_in_content d t → ¬ in_non_uncat_category d t →
      t ∉ (cleanup_orphan_tags d).known_tags.elems) := by
  have hknown : ∀ u : String,
      u ∈ (cleanup_orphan_tags d).known_tags.elems ↔ u ∈ cleanup_used_tags d := by
    intro u
    rw [cleanup_orphan_tags_known_tags]
    exact mem_pySortedByLower
  refine ⟨?_, ?_, ?_⟩
  · rw [hknown, mem_cleanup_used_tags]
  · intro c hc
    refine ⟨cleanupCategory (cleanup_used_tags d) c, ?_, rfl, rfl, ?_⟩
    · rw [cleanup_orphan_tags_tag_categories]
      exact List.mem_map_of_mem _ hc
    · rw [mem_cleanupCategory_tags, mem_cleanup_used_tags]
      simp only [List.mem_cons, List.mem_singleton, List.not_mem_nil]
      tauto
  · intro a _ _ hnu hnc hmem
    rw [hknown, mem_cleanup_used_tags] at hmem
    exact hmem.1.elim hnu hnc

/-- Witness for C2 (amended): in `c2_doc` the component `b` of the
registered AND tag `a&b` is neither used in content nor in a
non-`Uncategorized` category, so cleanup drops it from `known_tags`. -/
theorem cleanup_orphan_tags_spec_witness :
    "b" ∉ (cleanup_orphan_tags c2_doc).known_tags.elems :=
  (cleanup_orphan_tags_spec c2_doc "b").2.2 "a&b" (by decide) (by decide)
    (by decide) (by decide)

/-! ## splitting and joining on the ampersand -/

theorem contains_iff_mem {l : List Char} {a : Char} : l.contains a = true ↔ a ∈ l := by
  rw [show l.contains a = l.elem a from rfl]
  exact List.elem_iff

theorem mk_toList (u : String) : String.mk u.toList = u := rfl

theorem splitChar_of_not_mem {x : List Char} (hx : '&' ∉ x) :
    splitChar '&' x = [x] := by
  induction x with
  | nil => rfl
  | cons c cs ih =>
    have hc : ¬ c = '&' := fun h => hx (by rw [h]; exact List.mem_cons_self _ _)
    rw [splitChar, if_neg hc, ih (fun hm => hx (List.mem_cons_of_mem _ hm))]

theorem splitChar_append_sep {x r : List Char} (hx : '&' ∉ x) :
    splitChar '&' (x ++ '&' :: r) = x :: splitChar '&' r := by
  induction x with
  | nil => rw [List.nil_append, splitChar, if_pos rfl]
  | cons c cs ih =>
    have hc : ¬ c = '&' := fun h => hx (by rw [h]; exact List.mem_cons_self _ _)
    rw [List.cons_append, splitChar, if_neg hc,
      ih (fun hm => hx (List.mem_cons_of_mem _ hm))]

theorem splitChar_joinAmp {L : List (List Char)} (hL : ∀ l ∈ L, '&' ∉ l)
    (hne : L ≠ []) : splitChar '&' (joinAmp L) = L := by
  induction L with
  | nil => exact absurd rfl hne
  | cons x xs ih =>
    cases xs with
    | nil => exact splitChar_of_not_mem (hL x (List.mem_cons_self _ _))
    | cons y ys =>
      rw [show joinAmp (x :: y :: ys) = x ++ '&' :: joinAmp (y :: ys) from rfl,
        splitChar_append_sep (hL x (List.mem_cons_self _ _)),
        ih (fun l hl => hL l (List.mem_cons_of_mem _ hl)) (by simp)]

theorem startsWithSpacedAmp_eq_true {m : List Char}
    (h : startsWithSpacedAmp m = true) : ∃ t, m = ' ' :: '&' :: ' ' :: t := by
  cases m with
  | nil => simp [startsWithSpacedAmp] at h
  | cons a m1 =>
    cases m1 with
    | nil => simp [startsWithSpacedAmp] at h
    | cons b m2 =>
      cases m2 with
      | nil => simp [startsWithSpacedAmp] at h
      | cons c t =>
        simp only [startsWithSpacedAmp, Bool.and_eq_true, beq_iff_eq] at h
        obtain ⟨⟨rfl, rfl⟩, rfl⟩ := h
        exact ⟨t, rfl⟩

theorem startsWithSpacedAmp_amp (r : List Char) :
    startsWithSpacedAmp ('&' :: r) = false := by
  cases hsw : startsWithSpacedAmp ('&' :: r)
  · rfl
  · obtain ⟨t, ht⟩ := startsWithSpacedAmp_eq_true hsw
    injection ht with h1 h2
    exact absurd h1 (by decide)

theorem hasSpacedAmp_of_not_amp {m : List Char} (h : '&' ∉ m) :
    hasSpacedAmp m = false := by
  induction m with
  | nil => rfl
  | cons c cs ih =>
    rw [hasSpacedAmp, ih (fun hm => h (List.mem_cons_of_mem _ hm)), Bool.or_false]
    cases hsw : startsWithSpacedAmp (c :: cs)
    · rfl
    · obtain ⟨t, ht⟩ := startsWithSpacedAmp_eq_true hsw
      refine absurd ?_ h
      rw [ht]
      exact List.mem_cons_of_mem _ (List.mem_cons_self _ _)

theorem hasSpacedAmp_append_sep {x r : List Char} (hx : '&' ∉ x)
    (hlast : ∀ c, x.getLast? = some c → c ≠ ' ')
    (hr : hasSpacedAmp r = false) :
    hasSpacedAmp (x ++ '&' :: r) = false := by
  induction x with
  | nil =>
    rw [List.nil_append, hasSpacedAmp, startsWithSpacedAmp_amp, hr]
    rfl
  | cons c cs ih =>
    rw [List.cons_append, hasSpacedAmp]
    have htail : hasSpacedAmp (cs ++ '&' :: r) = false := by
      cases cs with
      | nil =>
        rw [List.nil_append, hasSpacedAmp, startsWithSpacedAmp_amp, hr]
        rfl
      | cons c2 cs2 =>
        refine ih (fun hm => hx (List.mem_cons_of_mem _ hm)) ?_
        intro a ha
        exact hlast a (by rw [List.getLast?_cons_cons]; exact ha)
    rw [htail, Bool.or_false]
    cases hsw : startsWithSpacedAmp (c :: (cs ++ '&' :: r))
    · rfl
    · obtain ⟨t, ht⟩ := startsWithSpacedAmp_eq_true hsw
      injection ht with h1 h2
      cases cs with
      | nil => exact absurd h1 (hlast c rfl)
      | cons c2 cs2 =>
        rw [List.cons_append] at h2
        injection h2 with h3 h4
        apply absurd _ hx
        rw [← h3]
        exact List.mem_cons_of_mem _ (List.mem_cons_self _ _)

theorem hasSpacedAmp_joinAmp {L : List (List Char)}
    (hamp : ∀ l ∈ L, '&' ∉ l)
    (hlst : ∀ l ∈ L, ∀ c, l.getLast? = some c → c ≠ ' ') :
    hasSpacedAmp (joinAmp L) = false := by
  induction L with
  | nil => rfl
  | cons x xs ih =>
    cases xs with
    | nil => exact hasSpacedAmp_of_not_amp (hamp x (List.mem_cons_self _ _))
    | cons y ys =>
      rw [show joinAmp (x :: y :: ys) = x ++ '&' :: joinAmp (y :: ys) from rfl]
      exact hasSpacedAmp_append_sep (hamp x (List.mem_cons_self _ _))
        (hlst x (List.mem_cons_self _ _))
        (ih (fun l hl => hamp l (List.mem_cons_of_mem _ hl))
          (fun l hl => hlst l (List.mem_cons_of_mem _ hl)))

theorem dropWhile_eq_self_head {p : Char → Bool} {l : List Char}
    (h : l.dropWhile p = l) : ∀ c, l.head? = some c → p c = false := by
  intro c hc
  cases l with
  | nil => cases hc
  | cons a as =>
    have hca : a = c := by simpa using hc
    subst hca
    cases hp : p a
    · rfl
    · rw [List.dropWhile_cons, hp, if_pos rfl] at h
      have hle := (List.dropWhile_sublist (l := as) p).length_le
      have hlen := congrArg List.length h
      rw [List.length_cons] at hlen
      omega

theorem stripChars_eq_self_head_last {l : List Char} (h : stripChars l = l) :
    (∀ c, l.head? = some c → c.isWhitespace = false) ∧
    (∀ c, l.getLast? = some c → c.isWhitespace = false) := by
  have h1 : (List.dropWhile (fun c => c.isWhitespace) l).length ≤ l.length :=
    (List.dropWhile_sublist _).length_le
  have hlen : (List.dropWhile (fun c => c.isWhitespace)
      (List.dropWhile (fun c => c.isWhitespace) l).reverse).length = l.length := by
    have h2 := congrArg List.length h
    rw [stripChars, List.length_reverse] at h2
    exact h2
  have h3 : (List.dropWhile (fun c => c.isWhitespace)
      (List.dropWhile (fun c => c.isWhitespace) l).reverse).length ≤
      (List.dropWhile (fun c => c.isWhitespace) l).length := by
    have := (List.dropWhile_sublist (l := (List.dropWhile (fun c => c.isWhitespace) l).reverse)
      (fun c => c.isWhitespace)).length_le
    rwa [List.length_reverse] at this
  have hA : List.dropWhile (fun c => c.isWhitespace) l = l :=
    (List.dropWhile_sublist _).eq_of_length (by omega)
  have hBlen : (List.dropWhile (fun c => c.isWhitespace)
      (List.dropWhile (fun c => c.isWhitespace) l).reverse).length =
      (List.dropWhile (fun c => c.isWhitespace) l).reverse.length := by
    rw [hlen, List.length_reverse, hA]
  have hB : List.dropWhile (fun c => c.isWhitespace)
      (List.dropWhile (fun c => c.isWhitespace) l).reverse =
      (List.dropWhile (fun c => c.isWhitespace) l).reverse :=
    (List.dropWhile_sublist _).eq_of_length hBlen
  constructor
  · exact dropWhile_eq_self_head hA
  · intro c hc
    refine dropWhile_eq_self_head hB c ?_
    rw [hA, List.head?_reverse]
    exact hc

theorem pyStrip_eq_self_conditions {u : String} (h : pyStrip u = u) :
    (∀ c, u.toList.head? = some c → c ≠ ' ') ∧
    (∀ c, u.toList.getLast? = some c → c ≠ ' ') := by
  have hdata : stripChars u.toList = u.toList := congrArg String.toList h
  obtain ⟨hh, hl⟩ := stripChars_eq_self_head_last hdata
  refine ⟨fun c hc heq => ?_, fun c hc heq => ?_⟩
  · have hw := hh c hc
    rw [heq] at hw
    exact absurd hw (by decide)
  · have hw := hl c hc
    rw [heq] at hw
    exact absurd hw (by decide)

theorem map_eq_self_of_eq {α : Type} {f : α → α} {L : List α}
    (h : ∀ a ∈ L, f a = a) : L.map f = L := by
  induction L with
  | nil => rfl
  | cons a as ih =>
    rw [List.map_cons, h a (List.mem_cons_self _ _),
      ih (fun b hb => h b (List.mem_cons_of_mem _ hb))]

/-- Claim C3, amended: For every non-empty list `T` of tag strings whose
elements contain no `&` and carry no leading or trailing whitespace,
`parse_and_tag_components (combine_tags_to_and T)` is the
case-insensitively (stably) sorted duplicate-free list of the elements of
`T`. -/
theorem parse_combine_inverse (T : List String) (hne : T ≠ [])
    (h : ∀ t ∈ T, '&' ∉ t.toList ∧ pyStrip t = t) :
    parse_and_tag_components (combine_tags_to_and T) =
      pySortedByLower (pySet T) := by
  have hUsub : ∀ u ∈ pySortedByLower (pySet T), u ∈ T := fun u hu =>
    mem_pySet.mp (mem_pySortedByLower.mp hu)
  have hsorted : sortedCI (pySortedByLower (pySet T)) := sortedCI_pySortedByLower _
  cases hU : pySortedByLower (pySet T) with
  | nil =>
    obtain ⟨t, ht⟩ : ∃ t, t ∈ T := by
      cases T with
      | nil => exact absurd rfl hne
      | cons a as => exact ⟨a, List.mem_cons_self _ _⟩
    have hmem : t ∈ pySortedByLower (pySet T) :=
      mem_pySortedByLower.mpr (mem_pySet.mpr ht)
    rw [hU] at hmem
    cases hmem
  | cons u us =>
    cases us with
    | nil =>
      have hu : u ∈ T := hUsub u (by rw [hU]; exact List.mem_cons_self _ _)
      have hcombu : combine_tags_to_and T = u := by
        rw [show combine_tags_to_and T =
            String.mk (joinAmp ((pySortedByLower (pySet T)).map String.toList)) from rfl,
          hU]
        exact mk_toList u
      rw [hcombu]
      unfold parse_and_tag_components
      have hnc : ¬ (u.toList.contains '&' = true) := fun hc =>
        (h u hu).1 (contains_iff_mem.mp hc)
      rw [if_neg hnc]
    | cons v vs =>
      have hall : ∀ w ∈ u :: v :: vs, '&' ∉ w.toList ∧ pyStrip w = w := by
        intro w hw
        exact h w (hUsub w (by rw [hU]; exact hw))
      have hcomb : combine_tags_to_and T =
          String.mk (joinAmp ((u :: v :: vs).map String.toList)) := by
        rw [show combine_tags_to_and T =
            String.mk (joinAmp ((pySortedByLower (pySet T)).map String.toList)) from rfl,
          hU]
      have hmap : ∀ l ∈ (u :: v :: vs).map String.toList, '&' ∉ l ∧
          (∀ c, l.head? = some c → c ≠ ' ') ∧
          (∀ c, l.getLast? = some c → c ≠ ' ') := by
        intro l hl
        obtain ⟨w, hw, rfl⟩ := List.mem_map.mp hl
        obtain ⟨hampw, hstrip⟩ := hall w hw
        obtain ⟨hh, hl2⟩ := pyStrip_eq_self_conditions hstrip
        exact ⟨hampw, hh, hl2⟩
      have hamp_mem : '&' ∈ joinAmp ((u :: v :: vs).map String.toList) := by
        rw [show joinAmp ((u :: v :: vs).map String.toList) =
            u.toList ++ '&' :: joinAmp ((v :: vs).map String.toList) from rfl]
        simp
      have hspaced : hasSpacedAmp (joinAmp ((u :: v :: vs).map String.toList)) = false :=
        hasSpacedAmp_joinAmp (fun l hl => (hmap l hl).1)
          (fun l hl => (hmap l hl).2.2)
      have hsplit : splitChar '&' (joinAmp ((u :: v :: vs).map String.toList)) =
          (u :: v :: vs).map String.toList :=
        splitChar_joinAmp (fun l hl => (hmap l hl).1) (by simp)
      rw [hcomb]
      unfold parse_and_tag_components
      rw [show (String.mk (joinAmp ((u :: v :: vs).map String.toList))).toList =
          joinAmp ((u :: v :: vs).map String.toList) from rfl]
      rw [if_pos (contains_iff_mem.mpr hamp_mem),
        if_neg (by rw [hspaced]; exact Bool.false_ne_true),
        hsplit, List.map_map]
      have hstrip_id : (u :: v :: vs).map
          ((fun l => pyStrip (String.mk l)) ∘ String.toList) = u :: v :: vs := by
        refine map_eq_self_of_eq ?_
        intro w hw
        show pyStrip (String.mk w.toList) = w
        rw [mk_toList]
        exact (hall w hw).2
      rw [hstrip_id]
      rw [hU] at hsorted
      exact pySortedByLower_eq_self hsorted

/-- Witness for C3 (amended): `T = ["Beta", "alpha"]` satisfies the
hypotheses, and parse∘combine returns the sorted unique list. -/
theorem parse_combine_inverse_witness :
    (["Beta", "alpha"] : List String) ≠ [] ∧
    parse_and_tag_components (combine_tags_to_and ["Beta", "alpha"]) =
      pySortedByLower (pySet ["Beta", "alpha"]) :=
  ⟨by decide, parse_combine_inverse ["Beta", "alpha"] (by decide) (by decide)⟩

/-! ## The content filter's arity error -/

theorem matches_filters_error (content_tags content_categories : List String)
    (filter_tag : String) (rest : List String) :
    matches_filters content_tags (filter_tag :: rest) content_categories =
      .error typeErrorMsg := rfl

theorem filterSections_error (d : Document) (filter_tag : String)
    (rest : List String) (l : List Section)
    (hs : ∃ s ∈ l, ∀ t ∈ s.tags, pyLower t ≠ "all") :
    filterSections d (filter_tag :: rest) l = .error typeErrorMsg := by
  induction l with
  | nil =>
    obtain ⟨s, hs0, _⟩ := hs
    cases hs0
  | cons s ss ih =>
    by_cases hall : "all" ∈ pySet (s.tags.map pyLower)
    · obtain ⟨s0, hs0, hs0t⟩ := hs
      rcases List.mem_cons.mp hs0 with rfl | hs0
      · obtain ⟨t, ht, hteq⟩ := List.mem_map.mp (mem_pySet.mp hall)
        exact absurd hteq (hs0t t ht)
      · rw [filterSections, if_pos hall, ih ⟨s0, hs0, hs0t⟩]
        rfl
    · rw [filterSections, if_neg hall, matches_filters_error]
      rfl

/-- Claim C8: For every document containing a section whose tag list has no
`all` (case-insensitively), `get_filtered_sections` with any non-empty
filter list returns the `TypeError` instead of a result:
`_matches_filters` passes three positional arguments
(`content_tags`, `content_categories`, `filter_tag`) to the two-parameter
`should_show_content_for_filter`. -/
theorem get_filtered_sections_type_error (d : Document)
    (active_filters : List String) (hf : active_filters ≠ [])
    (hs : ∃ s ∈ d.sections, ∀ t ∈ s.tags, pyLower t ≠ "all") :
    get_filtered_sections d active_filters = .error typeErrorMsg := by
  cases active_filters with
  | nil => exact absurd rfl hf
  | cons ft rest =>
    unfold get_filtered_sections
    rw [if_neg (by simp)]
    exact filterSections_error d ft rest d.sections hs

/-- Witness for C8: one section tagged `x`, one plain active filter. -/
theorem get_filtered_sections_type_error_witness :
    ((["x"] : List String) ≠ []) ∧
    get_filtered_sections c8_doc ["x"] = .error typeErrorMsg :=
  ⟨by decide,
    get_filtered_sections_type_error c8_doc ["x"] (by decide) (by decide)⟩

end TaggingApp
